import Mathlib

/-!
Shallow embedding of the Urban Analyst mutation core, covering
src/src/vector_fns.rs (calculate_dists, get_ordering_index) and
src/src/lib.rs (uamutate adjustment guard, aggregate_to_groups,
aggregate_to_groups_single_col).

Modelling conventions, stated once here:
* f64 values are modeled as exact rationals (ℚ).
* The f64::MAX sentinel initialising the running minimum in calculate_dists
  is modeled as an Option starting at none: every finite distance is below
  f64::MAX, so the first unused candidate is always accepted, exactly as in
  the source.
* The HashSet of used target indices is modeled as the list of insertions;
  only membership is ever queried, so list membership is equivalent.
* Rust panics that a claim depends on (the two assert calls in
  calculate_dists) are modeled as Option failure; panics no claim depends on
  (out-of-bounds indexing, max() of an empty vector) are noted at the
  definition and the corresponding evaluations stay in bounds.
* Matrices are lists of rows.
-/

namespace UrbanAnalyst

/-- Stable insertion of x into an already sorted list: x is placed before
the first element y that the comparator does not order strictly before x.
Inserting elements from the right end of the original list reproduces the
stable sort performed by sort_by in the source. -/
def insertOrd {α : Type} (lt : α → α → Bool) (x : α) : List α → List α
  | [] => [x]
  | y :: ys => if lt y x then y :: insertOrd lt x ys else x :: y :: ys

/-- Stable insertion sort driven by a strict boolean comparator; equal
elements keep their original relative order, as with sort_by in Rust. -/
def sortOrd {α : Type} (lt : α → α → Bool) : List α → List α
  | [] => []
  | x :: xs => insertOrd lt x (sortOrd lt xs)

/-- Sort key used by get_ordering_index: the absolute value when is_abs is
set, the value itself otherwise. -/
def sortKey (is_abs : Bool) (v : ℚ) : ℚ := if is_abs then |v| else v

/-- Boolean comparator on index-value pairs used by get_ordering_index:
strict comparison of the sort keys, reversed when desc is set. -/
def ordLt (desc is_abs : Bool) (a b : ℕ × ℚ) : Bool :=
  if desc then decide (sortKey is_abs b.2 < sortKey is_abs a.2)
  else decide (sortKey is_abs a.2 < sortKey is_abs b.2)

/-- Embedding of get_ordering_index from src/src/vector_fns.rs: indices that
sort vals ascending or descending, optionally by absolute value, pairing
each value with its index and sorting the pairs stably by value. -/
def get_ordering_index (vals : List ℚ) (desc is_abs : Bool) : List ℕ :=
  (sortOrd (ordLt desc is_abs) vals.enum).map Prod.fst

/-- Embedding of the inner loop of calculate_dists: scan the target values
with indices counting up from j, skip indices already in used, and track
the index of the minimal absolute distance to v1.  The accumulator starts
at (none, 0), modelling min_dist = f64::MAX, min_index = 0. -/
def find_nearest (used : List ℕ) (v1 : ℚ) :
    List ℚ → ℕ → Option ℚ × ℕ → Option ℚ × ℕ
  | [], _, acc => acc
  | v2 :: rest, j, acc =>
    if j ∈ used then find_nearest used v1 rest (j + 1) acc
    else
      match acc.1 with
      | none => find_nearest used v1 rest (j + 1) (some |v1 - v2|, j)
      | some d =>
        if |v1 - v2| < d then find_nearest used v1 rest (j + 1) (some |v1 - v2|, j)
        else find_nearest used v1 rest (j + 1) acc

/-- Embedding of the main loop of calculate_dists: walk the sorted order,
match each source entity to its nearest unused target, write the signed
(or relative) distance at the original position i, and append the matched
target index to the used list. -/
def match_loop (v1s v2s : List ℚ) (absolute : Bool) :
    List ℕ → List ℚ × List ℕ → List ℚ × List ℕ
  | [], acc => acc
  | i :: rest, acc =>
    let v1 := v1s.getD i 0
    let m := find_nearest acc.2 v1 v2s 0 (none, 0)
    let d := v2s.getD m.2 0 - v1
    match_loop v1s v2s absolute rest
      (acc.1.set i (if absolute then d else d / v1), acc.2 ++ [m.2])

/-- Embedding of calculate_dists from src/src/vector_fns.rs.  The two
assert panics (empty values1; different dimensions) are modeled as none.
Row 0 of each matrix is the primary variable. -/
def calculate_dists (values1 values2 : List (List ℚ)) (absolute : Bool) :
    Option (List ℚ) :=
  if values1.length = 0 ∨ (values1.headD []).length = 0 then none
  else
    if values1.length = values2.length ∧
        (values1.headD []).length = (values2.headD []).length then
      let v1s := values1.headD []
      let v2s := values2.headD []
      let order := get_ordering_index v1s false false
      some (match_loop v1s v2s absolute order (List.replicate v1s.length 0, [])).1
    else none

/-- The sequence of target indices chosen by calculate_dists on the same
input, in the order the greedy walk inserts them into the used set. -/
def matched_indices (values1 values2 : List (List ℚ)) (absolute : Bool) :
    List ℕ :=
  let v1s := values1.headD []
  let v2s := values2.headD []
  let order := get_ordering_index v1s false false
  (match_loop v1s v2s absolute order (List.replicate v1s.length 0, [])).2

/-- Embedding of aggregate_to_groups_single_col from src/src/lib.rs: sum
dists per 1-based group id, divide by the member count (0.0 for an empty
group), and drop the junk entry at position 0.  In the source max() panics
on an empty groups vector; here foldr max 0 yields 0 and the result is [],
and every claim below uses nonempty groups.  dists[i] is modeled with getD,
in bounds whenever dists and groups have equal length as at each call
site. -/
def aggregate_to_groups_single_col (dists : List ℚ) (groups : List ℕ) :
    List ℚ :=
  let max_group := groups.foldr max 0
  let acc := groups.enum.foldl
    (fun cs p =>
      (cs.1.set p.2 (cs.1.getD p.2 0 + 1),
       cs.2.set p.2 (cs.2.getD p.2 0 + dists.getD p.1 0)))
    (List.replicate (max_group + 1) (0 : ℕ), List.replicate (max_group + 1) (0 : ℚ))
  let means := (acc.2.zip acc.1).map
    (fun sc => if sc.2 ≠ 0 then sc.1 / (sc.2 : ℚ) else 0)
  means.tail

/-- Write value v at row i, column j of a matrix held as a list of rows.
Out-of-range writes are dropped; in the source they panic, and every
evaluation below stays in bounds. -/
def setEntry (m : List (List ℚ)) (i j : ℕ) (v : ℚ) : List (List ℚ) :=
  m.set i ((m.getD i []).set j v)

/-- Embedding of aggregate_to_groups from src/src/lib.rs.  values1 and
dists have one row per entity; column 0 of values1 is the primary value and
dists has one column per tracked variable.  The result is allocated with
groups.length rows and dists-column-count + 2 columns of zeros, exactly as
DMatrix::zeros(groups.len(), dists.ncols() + 2) in the source; column 0
receives the per-group mean of the original values, column 1 the
per-entity original-plus-absolute-distance values (the source writes them
without aggregating), and column col + 2 the per-group mean of distance
column col. -/
def aggregate_to_groups (values1 dists : List (List ℚ)) (groups : List ℕ) :
    List (List ℚ) :=
  let ncols := (dists.headD []).length
  let result0 := List.replicate groups.length (List.replicate (ncols + 2) (0 : ℚ))
  let values1_first_col := values1.map (fun r => r.getD 0 0)
  let mean_orig := aggregate_to_groups_single_col values1_first_col groups
  let result1 := mean_orig.enum.foldl (fun m p => setEntry m p.1 0 p.2) result0
  let dists_abs := dists.map (fun r => r.getD 0 0)
  let values1_transformed :=
    (values1_first_col.zip dists_abs).map (fun ab => ab.1 + ab.2)
  let result2 := values1_transformed.enum.foldl
    (fun m p => setEntry m p.1 1 p.2) result1
  (List.range ncols).foldl
    (fun m col =>
      let mean_dist := aggregate_to_groups_single_col
        (dists.map (fun r => r.getD col 0)) groups
      mean_dist.enum.foldl (fun mm p => setEntry mm p.1 (col + 2) p.2) m)
    result2

/-- Composition of distance matching and group aggregation as wired in
uamutate (src/src/lib.rs lines 66 to 67), specialised to a single variable
row: the source and target primary rows are matched with absolute
distances, and the resulting single-column distance matrix is aggregated
with the group vector.  The reshaping gives each callee the orientation it
expects (one-row matrices for the matcher, one row per entity for the
aggregator). -/
def mutate_pipeline (row1 row2 : List ℚ) (groups : List ℕ) :
    Option (List (List ℚ)) :=
  match calculate_dists [row1] [row2] true with
  | none => none
  | some ds =>
    some (aggregate_to_groups (row1.map (fun v => [v]))
      (ds.map (fun d => [d])) groups)

/-- Embedding of the regression-adjustment guard in uamutate
(src/src/lib.rs lines 56 to 58).  The body adj_for_beta lives in module mlr
which is not among the source files, so it is abstracted as an arbitrary
function adj; the guard values1.nrows() greater than 1 is translated
literally, and the skip behaviour depends only on that guard. -/
def adjust_stage (adj : List (List ℚ) → List (List ℚ) → List (List ℚ))
    (values1 values2 : List (List ℚ)) : List (List ℚ) :=
  if 1 < values1.length then adj values1 values2 else values1

/-! Theorems settling the claims. -/

/-- C1: evaluation at the failing input.  With groups = [1, 1] the maximum
group id is 1, yet aggregate_to_groups returns a matrix with 2 rows (one
per entity, from DMatrix::zeros(groups.len(), _)), not one row per group as
the claim states. -/
theorem c1_row_count_failing_input :
    (aggregate_to_groups [[1], [3]] [[0], [0]] [1, 1]).length = 2 ∧
    [1, 1].foldr max 0 = 1 := by
  constructor
  · norm_num [aggregate_to_groups, aggregate_to_groups_single_col, setEntry,
      List.enum, List.enumFrom, List.replicate, List.range_succ,
      List.range_zero, List.set, List.getD, List.head?,
      List.foldl]
  · decide

/-- C2: evaluation at the failing input.  For values1 = [[1], [3]], zero
distances and groups = [1, 1], the entry in column 1 of group 1's row is
the first entity's value 1, while the group mean of original value plus
absolute distance is 2: the mutated column holds per-entity values, not
per-group means. -/
theorem c2_mutated_column_failing_input :
    ((aggregate_to_groups [[1], [3]] [[0], [0]] [1, 1]).getD 0 []).getD 1 0 = 1 ∧
    ((1 + 0) + (3 + 0)) / 2 = (2 : ℚ) := by
  constructor
  · norm_num [aggregate_to_groups, aggregate_to_groups_single_col, setEntry,
      List.enum, List.enumFrom, List.replicate, List.range_succ,
      List.range_zero, List.set, List.getD, List.head?,
      List.foldl]
  · norm_num

/-- C3: evaluation at the failing input.  Swapping the two entities of the
source row [1, 2] (and the group vector [1, 1], unchanged by the swap)
changes the result of the matching-plus-aggregation pipeline, because the
mutated-value column is written per entity; so the pipeline is not
permutation invariant. -/
theorem c3_permutation_failing_input :
    mutate_pipeline [1, 2] [1, 2] [1, 1] ≠ mutate_pipeline [2, 1] [1, 2] [1, 1] := by
  norm_num [mutate_pipeline, calculate_dists, get_ordering_index, sortKey, ordLt, sortOrd,
    insertOrd, match_loop, find_nearest, aggregate_to_groups,
    aggregate_to_groups_single_col, setEntry, List.enum, List.enumFrom,
    List.replicate, List.range_succ, List.range_zero, List.set, List.getD,
    List.head?, List.foldl]

/-- C4: evaluation at the failing input.  With groups = [2, 2] group 1 has
zero members, and its result row keeps 0.0 in the aggregated columns, but
column 1 of that row holds the first entity's per-entity value 5, not 0. -/
theorem c4_empty_group_failing_input :
    ((aggregate_to_groups [[5], [6]] [[0], [0]] [2, 2]).getD 0 []).getD 1 0 = 5 ∧
    (5 : ℚ) ≠ 0 := by
  constructor
  · norm_num [aggregate_to_groups, aggregate_to_groups_single_col, setEntry,
      List.enum, List.enumFrom, List.replicate, List.range_succ,
      List.range_zero, List.set, List.getD, List.head?,
      List.foldl]
  · norm_num

/-- C6: the literal case from the spec and the doctest: values1 =
[1, 2, 4, 5] against values2 = [7, 9, 3, 2] gives absolute distances
[1, 1, 3, 4] and relative distances [1, 1/2, 3/4, 4/5], each written back
at the source entity's original position. -/
theorem c6_literal_case :
    calculate_dists [[1, 2, 4, 5]] [[7, 9, 3, 2]] true = some [1, 1, 3, 4] ∧
    calculate_dists [[1, 2, 4, 5]] [[7, 9, 3, 2]] false =
      some [1, 1/2, 3/4, 4/5] := by
  constructor <;>
    norm_num [calculate_dists, get_ordering_index, sortKey, ordLt, sortOrd, insertOrd,
      match_loop, find_nearest, List.enum, List.enumFrom, List.replicate,
      List.range_succ, List.range_zero, List.set, List.getD,
      List.head?, List.foldl]

/-- C7 counterexample: on the tied input [1, 1] the stable sort leaves both
orders at [0, 1], so the descending ordering is not the reverse of the
ascending one. -/
theorem c7_counterexample_ties :
    get_ordering_index [1, 1] true false ≠
      (get_ordering_index [1, 1] false false).reverse := by
  norm_num [get_ordering_index, sortKey, ordLt, sortOrd, insertOrd, List.enum, List.enumFrom,
    List.replicate, List.set, List.getD, List.head?]

/-- C8 counterexample: with source primary values [0, 1] (a zero value) and
a relative distance requested, calculate_dists returns normally — no error
and no sentinel is surfaced; the division is executed unconditionally. -/
theorem c8_counterexample_zero_source :
    (calculate_dists [[0, 1]] [[2, 3]] false).isSome = true := by
  norm_num [calculate_dists, get_ordering_index, sortKey, ordLt, sortOrd, insertOrd,
    match_loop, find_nearest, List.enum, List.enumFrom, List.replicate,
    List.range_succ, List.range_zero, List.set, List.getD,
    List.head?, List.foldl]

/-- C9: whenever the source matrix has exactly one variable row, the
regression-adjustment stage is skipped and values1 passes through
unchanged, whatever the adjustment body does. -/
theorem c9_single_row_skips_adjustment
    (adj : List (List ℚ) → List (List ℚ) → List (List ℚ))
    (values1 values2 : List (List ℚ)) (h : values1.length = 1) :
    adjust_stage adj values1 values2 = values1 := by
  simp [adjust_stage, h]

/-- C9 witness: a concrete one-variable-row source matrix is unchanged by
the adjustment stage even under an adjustment that would rewrite it. -/
theorem c9_witness :
    adjust_stage (fun _ _ => [[9]]) [[1, 2]] [[3, 4]] = [[1, 2]] :=
  c9_single_row_skips_adjustment (fun _ _ => [[9]]) [[1, 2]] [[3, 4]] rfl

/-! Helper lemmas about the stable sort. -/

theorem insertOrd_perm {α : Type} (lt : α → α → Bool) (x : α) :
    ∀ l : List α, List.Perm (insertOrd lt x l) (x :: l)
  | [] => by simp [insertOrd]
  | y :: ys => by
    rw [insertOrd]
    by_cases h : lt y x = true
    · rw [if_pos h]
      exact ((insertOrd_perm lt x ys).cons y).trans (List.Perm.swap x y ys)
    · rw [if_neg h]

theorem sortOrd_perm {α : Type} (lt : α → α → Bool) :
    ∀ l : List α, List.Perm (sortOrd lt l) l
  | [] => by simp [sortOrd]
  | x :: xs => by
    rw [sortOrd]
    exact (insertOrd_perm lt x (sortOrd lt xs)).trans ((sortOrd_perm lt xs).cons x)

theorem insertOrd_pairwise {α : Type} {lt : α → α → Bool}
    (hasym : ∀ a b, lt a b = true → lt b a = false)
    (htr : ∀ a b c, lt b a = false → lt c b = false → lt c a = false)
    (x : α) :
    ∀ l : List α, l.Pairwise (fun a b => lt b a = false) →
      (insertOrd lt x l).Pairwise (fun a b => lt b a = false)
  | [], _ => by simp [insertOrd]
  | y :: ys, hl => by
    have hl2 := hl
    rw [List.pairwise_cons] at hl2
    obtain ⟨hy, hys⟩ := hl2
    rw [insertOrd]
    by_cases h : lt y x = true
    · rw [if_pos h, List.pairwise_cons]
      refine ⟨?_, insertOrd_pairwise hasym htr x ys hys⟩
      intro z hz
      have hz2 : z = x ∨ z ∈ ys := by
        simpa using (insertOrd_perm lt x ys).mem_iff.mp hz
      rcases hz2 with rfl | hz2
      · exact hasym y z h
      · exact hy z hz2
    · rw [if_neg h, List.pairwise_cons]
      rw [Bool.not_eq_true] at h
      refine ⟨?_, hl⟩
      intro z hz
      rcases List.mem_cons.mp hz with rfl | hz2
      · exact h
      · exact htr x y z h (hy z hz2)

theorem sortOrd_pairwise {α : Type} {lt : α → α → Bool}
    (hasym : ∀ a b, lt a b = true → lt b a = false)
    (htr : ∀ a b c, lt b a = false → lt c b = false → lt c a = false) :
    ∀ l : List α, (sortOrd lt l).Pairwise (fun a b => lt b a = false)
  | [] => by simp [sortOrd]
  | x :: xs => by
    rw [sortOrd]
    exact insertOrd_pairwise hasym htr x _ (sortOrd_pairwise hasym htr xs)

theorem ordLt_asymm {desc is_abs : Bool} {a b : ℕ × ℚ}
    (h : ordLt desc is_abs a b = true) : ordLt desc is_abs b a = false := by
  cases desc <;>
    simp only [ordLt, if_true, if_false, Bool.false_eq_true, decide_eq_true_eq,
      decide_eq_false_iff_not, not_lt, ite_true, ite_false] at h ⊢ <;>
    exact h.le

theorem ordLt_neg_trans {desc is_abs : Bool} {a b c : ℕ × ℚ}
    (h1 : ordLt desc is_abs b a = false) (h2 : ordLt desc is_abs c b = false) :
    ordLt desc is_abs c a = false := by
  cases desc <;>
    simp only [ordLt, if_true, if_false, Bool.false_eq_true, decide_eq_true_eq,
      decide_eq_false_iff_not, not_lt, ite_true, ite_false] at h1 h2 ⊢
  · exact le_trans h1 h2
  · exact le_trans h2 h1

theorem ordLt_false_asc {is_abs : Bool} {a b : ℕ × ℚ}
    (h : ordLt false is_abs b a = false) :
    sortKey is_abs a.2 ≤ sortKey is_abs b.2 := by
  simpa [ordLt, not_lt] using h

theorem ordLt_false_desc {is_abs : Bool} {a b : ℕ × ℚ}
    (h : ordLt true is_abs b a = false) :
    sortKey is_abs b.2 ≤ sortKey is_abs a.2 := by
  simpa [ordLt, not_lt] using h

theorem get_ordering_index_length (vals : List ℚ) (desc is_abs : Bool) :
    (get_ordering_index vals desc is_abs).length = vals.length := by
  have h := ((sortOrd_perm (ordLt desc is_abs) vals.enum).map Prod.fst).length_eq
  rw [List.enum_map_fst, List.length_range] at h
  exact h

/-- C10: for every input vector and every combination of the two flags,
get_ordering_index returns a permutation of the indices 0 to n minus 1:
every input index appears exactly once. -/
theorem c10_ordering_index_is_permutation (vals : List ℚ) (desc is_abs : Bool) :
    List.Perm (get_ordering_index vals desc is_abs) (List.range vals.length) := by
  have h := (sortOrd_perm (ordLt desc is_abs) vals.enum).map Prod.fst
  rw [List.enum_map_fst] at h
  exact h

/-- C7 amended: when the sort keys (absolute values when is_abs) of the
input are pairwise distinct, the descending ordering is the exact reverse
of the ascending one; the two literal orderings from the spec hold as
stated.  On tied inputs the stable sort keeps the original order in both
directions, so the unrestricted claim fails (see the counterexample). -/
theorem c7_desc_is_reverse_on_distinct_keys (vals : List ℚ) (is_abs : Bool)
    (hd : (vals.map (sortKey is_abs)).Nodup) :
    get_ordering_index vals true is_abs =
      (get_ordering_index vals false is_abs).reverse ∧
    get_ordering_index [1, -2, 3, -4, 5] false false = [3, 1, 0, 2, 4] ∧
    get_ordering_index [1, -2, 3, -4, 5] false true = [0, 1, 2, 3, 4] := by
  refine ⟨?_, ?_, ?_⟩
  · unfold get_ordering_index
    set A := sortOrd (ordLt false is_abs) vals.enum with hA
    set D := sortOrd (ordLt true is_abs) vals.enum with hD
    have hAp : A.Pairwise (fun a b => ordLt false is_abs b a = false) :=
      @sortOrd_pairwise (ℕ × ℚ) (ordLt false is_abs) (fun _ _ h => ordLt_asymm h)
        (fun _ _ _ h1 h2 => ordLt_neg_trans h1 h2) vals.enum
    have hDp : D.Pairwise (fun a b => ordLt true is_abs b a = false) :=
      @sortOrd_pairwise (ℕ × ℚ) (ordLt true is_abs) (fun _ _ h => ordLt_asymm h)
        (fun _ _ _ h1 h2 => ordLt_neg_trans h1 h2) vals.enum
    have h0 : vals.enum.map (fun p : ℕ × ℚ => sortKey is_abs p.2) =
        vals.map (sortKey is_abs) := by
      conv_rhs => rw [← List.enum_map_snd vals]
      rw [List.map_map]
      rfl
    have hne : vals.enum.Pairwise
        (fun p q : ℕ × ℚ => sortKey is_abs p.2 ≠ sortKey is_abs q.2) := by
      rw [← h0] at hd
      exact List.pairwise_map.mp hd
    have hneA : A.Pairwise
        (fun p q : ℕ × ℚ => sortKey is_abs p.2 ≠ sortKey is_abs q.2) :=
      hne.perm (sortOrd_perm (ordLt false is_abs) vals.enum).symm
        (fun h => Ne.symm h)
    have hneD : D.Pairwise
        (fun p q : ℕ × ℚ => sortKey is_abs p.2 ≠ sortKey is_abs q.2) :=
      hne.perm (sortOrd_perm (ordLt true is_abs) vals.enum).symm
        (fun h => Ne.symm h)
    have hAs : A.Pairwise (fun p q => sortKey is_abs p.2 < sortKey is_abs q.2) :=
      (hAp.and hneA).imp fun hab => lt_of_le_of_ne (ordLt_false_asc hab.1) hab.2
    have hDs : D.Pairwise (fun p q => sortKey is_abs q.2 < sortKey is_abs p.2) :=
      (hDp.and hneD).imp fun hab =>
        lt_of_le_of_ne (ordLt_false_desc hab.1) (Ne.symm hab.2)
    have hDrev : D.reverse.Pairwise
        (fun p q => sortKey is_abs p.2 < sortKey is_abs q.2) :=
      List.pairwise_reverse.mpr hDs
    have hperm : List.Perm A D.reverse :=
      ((sortOrd_perm (ordLt false is_abs) vals.enum).trans
        (sortOrd_perm (ordLt true is_abs) vals.enum).symm).trans
        (List.reverse_perm D).symm
    haveI : IsAntisymm (ℕ × ℚ)
        (fun p q => sortKey is_abs p.2 < sortKey is_abs q.2) :=
      ⟨fun a b h1 h2 => absurd h2 (not_lt.mpr h1.le)⟩
    have heq : A = D.reverse := List.eq_of_perm_of_sorted hperm hAs hDrev
    have hD2 : D = A.reverse := by rw [heq, List.reverse_reverse]
    rw [hD2, List.map_reverse]
  · norm_num [get_ordering_index, sortKey, ordLt, sortOrd, insertOrd,
      List.enum, List.enumFrom]
  · norm_num [get_ordering_index, sortKey, ordLt, sortOrd, insertOrd,
      List.enum, List.enumFrom]

/-- C7 witness: the distinct-key hypothesis holds at the literal input of
the spec, and there the descending ordering is the reverse of the
ascending one. -/
theorem c7_witness :
    ([(1 : ℚ), -2, 3, -4, 5].map (sortKey false)).Nodup ∧
    get_ordering_index [1, -2, 3, -4, 5] true false =
      (get_ordering_index [1, -2, 3, -4, 5] false false).reverse := by
  have hd : ([(1 : ℚ), -2, 3, -4, 5].map (sortKey false)).Nodup := by
    norm_num [sortKey]
  exact ⟨hd, (c7_desc_is_reverse_on_distinct_keys [1, -2, 3, -4, 5] false hd).1⟩

/-! Helper lemmas for the greedy matching walk. -/

theorem exists_unused (n : ℕ) (used : List ℕ) (hn : used.Nodup)
    (hlen : used.length < n) : ∃ j, j < n ∧ j ∉ used := by
  by_contra hcon
  push_neg at hcon
  have hsub : Finset.range n ⊆ used.toFinset := by
    intro j hj
    rw [Finset.mem_range] at hj
    exact List.mem_toFinset.mpr (hcon j hj)
  have hcard := Finset.card_le_card hsub
  rw [Finset.card_range, List.toFinset_card_of_nodup hn] at hcard
  omega

theorem find_nearest_spec (used : List ℕ) (v1 : ℚ) :
    ∀ (ts : List ℚ) (j : ℕ) (acc : Option ℚ × ℕ),
      (acc.1.isSome = true → acc.2 ∉ used) →
      ((∃ k, k < ts.length ∧ (j + k) ∉ used) ∨ acc.1.isSome = true) →
      (find_nearest used v1 ts j acc).1.isSome = true ∧
      (find_nearest used v1 ts j acc).2 ∉ used
  | [], j, acc, hacc, hex => by
    rw [find_nearest]
    rcases hex with ⟨k, hk, _⟩ | hs
    · simp at hk
    · exact ⟨hs, hacc hs⟩
  | v2 :: rest, j, acc, hacc, hex => by
    rw [find_nearest]
    by_cases hj : j ∈ used
    · rw [if_pos hj]
      refine find_nearest_spec used v1 rest (j + 1) acc hacc ?_
      rcases hex with ⟨k, hk, hkn⟩ | hs
      · left
        cases k with
        | zero => exact absurd hj (by simpa using hkn)
        | succ k2 =>
          refine ⟨k2, ?_, ?_⟩
          · simpa [Nat.succ_lt_succ_iff] using hk
          · rw [show j + 1 + k2 = j + (k2 + 1) by omega]
            exact hkn
      · right
        exact hs
    · rw [if_neg hj]
      obtain ⟨accd, acci⟩ := acc
      cases accd with
      | none =>
        dsimp only
        exact find_nearest_spec used v1 rest (j + 1) (some |v1 - v2|, j)
          (fun _ => hj) (Or.inr rfl)
      | some d =>
        dsimp only
        by_cases hlt : |v1 - v2| < d
        · rw [if_pos hlt]
          exact find_nearest_spec used v1 rest (j + 1) (some |v1 - v2|, j)
            (fun _ => hj) (Or.inr rfl)
        · rw [if_neg hlt]
          exact find_nearest_spec used v1 rest (j + 1) (some d, acci)
            hacc (Or.inr rfl)

theorem match_loop_spec (v1s v2s : List ℚ) (absolute : Bool) :
    ∀ (order : List ℕ) (dists : List ℚ) (used : List ℕ),
      used.Nodup →
      used.length + order.length ≤ v2s.length →
      (match_loop v1s v2s absolute order (dists, used)).1.length = dists.length ∧
      (match_loop v1s v2s absolute order (dists, used)).2.Nodup ∧
      (match_loop v1s v2s absolute order (dists, used)).2.length =
        used.length + order.length
  | [], dists, used, hn, _ => by
    rw [match_loop]
    exact ⟨rfl, hn, by simp⟩
  | i :: rest, dists, used, hn, hlen => by
    rw [match_loop]
    dsimp only
    have hul : used.length < v2s.length := by
      simp only [List.length_cons] at hlen
      omega
    obtain ⟨j, hj, hju⟩ := exists_unused v2s.length used hn hul
    have hfn := find_nearest_spec used (v1s.getD i 0) v2s 0 (none, 0)
      (by intro h; simp at h) (Or.inl ⟨j, hj, by simpa using hju⟩)
    have hn2 : (used ++ [(find_nearest used (v1s.getD i 0) v2s 0 (none, 0)).2]).Nodup := by
      rw [List.nodup_append]
      refine ⟨hn, List.nodup_singleton _, ?_⟩
      intro a ha hb
      rw [List.mem_singleton] at hb
      rw [hb] at ha
      exact hfn.2 ha
    have hlen2 : (used ++ [(find_nearest used (v1s.getD i 0) v2s 0 (none, 0)).2]).length
        + rest.length ≤ v2s.length := by
      simp only [List.length_append, List.length_singleton, List.length_cons,
        List.length_nil] at hlen ⊢
      omega
    have ih := match_loop_spec v1s v2s absolute rest
      (dists.set i (if absolute
        then v2s.getD (find_nearest used (v1s.getD i 0) v2s 0 (none, 0)).2 0 - v1s.getD i 0
        else (v2s.getD (find_nearest used (v1s.getD i 0) v2s 0 (none, 0)).2 0 - v1s.getD i 0)
          / v1s.getD i 0))
      (used ++ [(find_nearest used (v1s.getD i 0) v2s 0 (none, 0)).2]) hn2 hlen2
    simp only [List.length_set, List.length_append, List.length_singleton,
      List.length_cons, List.length_nil] at ih
    refine ⟨ih.1, ih.2.1, ?_⟩
    rw [ih.2.2]
    simp only [List.length_cons]
    omega

/-- C5: for every pair of equally shaped nonempty inputs, calculate_dists
succeeds, its result has one entry per source entity, and the target
indices matched during the greedy walk are pairwise distinct, with one
match per source entity. -/
theorem c5_length_and_unique_matches (values1 values2 : List (List ℚ))
    (absolute : Bool)
    (h1 : values1.length = values2.length)
    (h2 : (values1.headD []).length = (values2.headD []).length)
    (h3 : values1.length ≠ 0)
    (h4 : (values1.headD []).length ≠ 0) :
    (calculate_dists values1 values2 absolute).isSome = true ∧
    ((calculate_dists values1 values2 absolute).getD []).length =
      (values1.headD []).length ∧
    (matched_indices values1 values2 absolute).Nodup ∧
    (matched_indices values1 values2 absolute).length =
      (values1.headD []).length := by
  have hml := match_loop_spec (values1.headD []) (values2.headD []) absolute
    (get_ordering_index (values1.headD []) false false)
    (List.replicate (values1.headD []).length 0) []
    List.nodup_nil
    (by simp only [List.length_nil, get_ordering_index_length]; omega)
  rw [List.length_replicate] at hml
  have hcd : calculate_dists values1 values2 absolute =
      some (match_loop (values1.headD []) (values2.headD []) absolute
        (get_ordering_index (values1.headD []) false false)
        (List.replicate (values1.headD []).length 0, [])).1 := by
    rw [calculate_dists, if_neg (not_or.mpr ⟨h3, h4⟩), if_pos ⟨h1, h2⟩]
  refine ⟨by rw [hcd]; rfl, ?_, ?_, ?_⟩
  · rw [hcd]
    simpa using hml.1
  · exact hml.2.1
  · rw [matched_indices]
    rw [hml.2.2, get_ordering_index_length]
    simp

/-- C5 witness: the properties at the literal input of the spec. -/
theorem c5_witness :
    (calculate_dists [[1, 2, 4, 5]] [[7, 9, 3, 2]] true).isSome = true ∧
    ((calculate_dists [[1, 2, 4, 5]] [[7, 9, 3, 2]] true).getD []).length = 4 ∧
    (matched_indices [[1, 2, 4, 5]] [[7, 9, 3, 2]] true).Nodup ∧
    (matched_indices [[1, 2, 4, 5]] [[7, 9, 3, 2]] true).length = 4 := by
  have h := c5_length_and_unique_matches [[1, 2, 4, 5]] [[7, 9, 3, 2]] true
    (by norm_num) (by norm_num) (by norm_num) (by norm_num)
  simpa using h

/-- C8 amended: calculate_dists performs no zero check on source values:
with a zero source value present and relative distances requested it still
returns normally, the division being executed unconditionally (at the
float level this yields infinity or NaN); the only rejected inputs are
empty input and dimension mismatch. -/
theorem c8_no_zero_check (values1 values2 : List (List ℚ))
    (h1 : values1.length = values2.length)
    (h2 : (values1.headD []).length = (values2.headD []).length)
    (h3 : values1.length ≠ 0)
    (h4 : (values1.headD []).length ≠ 0)
    (_h0 : (0 : ℚ) ∈ values1.headD []) :
    (calculate_dists values1 values2 false).isSome = true := by
  rw [calculate_dists, if_neg (not_or.mpr ⟨h3, h4⟩), if_pos ⟨h1, h2⟩]
  rfl

/-- C8 witness: a singleton source with value zero and relative distances
requested returns normally. -/
theorem c8_witness : (calculate_dists [[0]] [[5]] false).isSome = true :=
  c8_no_zero_check [[0]] [[5]] rfl rfl (by norm_num) (by norm_num)
    (by norm_num)

end UrbanAnalyst
